import Mathlib

/-
Verification development for the four maintenance scripts of the repository:
`combine_utils.py`, `remove_facade.py`, `restore_facade.py`, `update_utils.py`.

File contents are modelled as `List Char` (the scripts treat files as opaque
text; all text involved is ASCII).  The filesystem is modelled as a total map
from filenames to optional contents.  Python's `str.replace`, `str.split(m)[0]`
and the three `re.sub` calls of `update_utils.py` are embedded as executable
scanners with the same left-to-right, non-overlapping semantics.
-/

namespace Scripts

/-- Filesystem: a map from filename to the file's content, `none` when the
file does not exist. -/
abbrev FS := String → Option (List Char)

/-- Overwrite (or create) a file. -/
def fsWrite (fs : FS) (name : String) (content : List Char) : FS :=
  fun n => if n = name then some content else fs n

/-- `os.remove`: afterwards the file does not exist. -/
def fsRemove (fs : FS) (name : String) : FS :=
  fun n => if n = name then none else fs n

/-- A word character for Python's `\b` on the ASCII text these scripts
process: `[A-Za-z0-9_]`. -/
def wordChar (c : Char) : Bool := c.isAlphanum || c = '_'

/-- A quote character, the class `["']` of the include regex. -/
def isQuote (c : Char) : Bool := c = '"' || c = Char.ofNat 39

/-- Match a literal at the head of a list; on success return the rest. -/
def dropLit : List Char → List Char → Option (List Char)
  | [], cs => some cs
  | _ :: _, [] => none
  | p :: ps, c :: cs => if c = p then dropLit ps cs else none

/-- Python `s.split(m)[0]` for a non-empty separator `m`: the portion of `s`
strictly before the first occurrence of `m` (all of `s` when `m` does not
occur). -/
def splitFirst (m : List Char) : List Char → List Char
  | [] => []
  | c :: cs => if m.isPrefixOf (c :: cs) then [] else c :: splitFirst m cs

/-- Python `m in s`: does `m` occur as a contiguous substring of `s`? -/
def containsTok (m : List Char) : List Char → Bool
  | [] => m.isPrefixOf ([] : List Char)
  | c :: cs => m.isPrefixOf (c :: cs) || containsTok m cs

/-- Python `s.replace(old, new)` for non-empty `old`: a single left-to-right
scan replacing non-overlapping occurrences.  Fuel-driven structural recursion;
fuel `s.length` always suffices since every step consumes at least one
character. -/
def replaceFuel (old new : List Char) : Nat → List Char → List Char
  | 0, s => s
  | _ + 1, [] => []
  | n + 1, c :: cs =>
    if old.isPrefixOf (c :: cs) then
      new ++ replaceFuel old new n (List.drop old.length (c :: cs))
    else c :: replaceFuel old new n cs

/-- Python `s.replace(old, new)`. -/
def pyReplace (old new s : List Char) : List Char := replaceFuel old new s.length s

/-- The loop shared by `remove_facade.py` and `update_utils.py`:
for each listed filename that exists, rewrite its content with `T` and print
`Updated: <name>`; silently skip missing files.  Returns the final filesystem
and the printed lines in order. -/
def runFiles (T : List Char → List Char) : List String → FS → FS × List String
  | [], fs => (fs, [])
  | f :: rest, fs =>
    match fs f with
    | none => runFiles T rest fs
    | some c =>
      let p := runFiles T rest (fsWrite fs f (T c))
      (p.1, ("Updated: " ++ f) :: p.2)

/-- The hardcoded file list shared by `remove_facade.py` and
`update_utils.py`. -/
def files_to_update : List String :=
  ["Code.gs", "Config.gs", "DataRetrieval.gs", "Email.gs",
   "FetchEconomicEvents.gs", "FundamentalMetrics.gs", "GoogleSearch.gs",
   "KeyMarketIndicators.gs", "MacroeconomicFactors.gs", "MarketSentiment.gs",
   "Prompt.gs", "Setup.gs", "StockDataRetriever.gs"]

/-- The marker string `'// Export all functions directly'` used by
`combine_utils.py` and `restore_facade.py`. -/
def marker : List Char := "// Export all functions directly".toList

end Scripts

namespace CombineUtils

open Scripts

/-- `combine_files` of `combine_utils.py`: read `Utils.gs` and
`Utils_Main.gs`, keep `Utils_Main.gs`'s portion before the first marker,
append the marker line and the full content of `Utils.gs`, overwrite
`Utils_Main.gs`, delete `Utils.gs`.  `none` when a read fails. -/
def combine_files (fs : FS) : Option FS :=
  match fs "Utils.gs", fs "Utils_Main.gs" with
  | some utils_content, some main_content =>
    let combined_content :=
      splitFirst marker main_content
        ++ "\n// Export all functions directly\n".toList ++ utils_content
    some (fsRemove (fsWrite fs "Utils_Main.gs" combined_content) "Utils.gs")
  | _, _ => none

end CombineUtils

namespace RemoveFacade

open Scripts

/-- `update_file_content` of `remove_facade.py`:
`content.replace('Utils_Main', '')`. -/
def update_file_content (content : List Char) : List Char :=
  pyReplace "Utils_Main".toList "".toList content

/-- The whole script: run the loop over the fixed list, then unconditionally
`os.remove('Utils_Main.gs')` (an error — `none` — when that file is
missing). -/
def remove_facade_script (fs : FS) : Option (FS × List String) :=
  let p := runFiles update_file_content files_to_update fs
  match p.1 "Utils_Main.gs" with
  | none => none
  | some _ => some (fsRemove p.1 "Utils_Main.gs", p.2)

end RemoveFacade

namespace RestoreFacade

open Scripts

/-- The part of the hardcoded triple-quoted block of `restore_facade.py`
that follows the marker line: a newline and the fixed `Object.assign`
mapping of the 17 exported names. -/
def assignTail : List Char :=
  ("\nObject.assign(this, \x7b\n  enhancedCleanAnalysisResult: CoreUtils.enhancedCleanAnalysisResult,\n  testEnhancedJsonParsing: CoreUtils.testEnhancedJsonParsing,\n  formatHtmlEmailBodyWithAnalysis: EmailUtils.formatHtmlEmailBodyWithAnalysis,\n  generateEmailTemplate: EmailUtils.generateEmailTemplate,\n  generateMarketSentimentSection: MarketSentiment.generateMarketSentimentSection,\n  generateMarketIndicatorsSection: MarketIndicators.generateMarketIndicatorsSection,\n  generateFundamentalMetricsSection: FundamentalMetrics.generateFundamentalMetricsSection,\n  generateMacroeconomicFactorsSection: MacroeconomicFactors.generateMacroeconomicFactorsSection,\n  generateGeopoliticalRisksSection: GeopoliticalRisks.generateGeopoliticalRisksSection,\n  formatDate: DataUtils.formatDate,\n  formatValue: DataUtils.formatValue,\n  formatNumberWithSuffix: DataUtils.formatNumberWithSuffix,\n  saveToGoogleDrive: DataUtils.saveToGoogleDrive,\n  retrieveMacroeconomicFactors: MacroeconomicFactors.retrieveMacroeconomicFactors,\n  retrieveTreasuryYields: MacroeconomicFactors.retrieveTreasuryYields,\n  retrieveInflationData: MacroeconomicFactors.retrieveInflationData,\n  retrieveFedPolicy: MacroeconomicFactors.retrieveFedPolicy\n\x7d);\n").toList

/-- The full hardcoded triple-quoted block appended by `restore_facade.py`,
spelled character-for-character as the source literal: it begins with a
newline, then the marker line `// Export all functions directly` followed by
a newline and the `Object.assign` mapping (`assignTail`). -/
def facadeBlock : List Char := '\n' :: (Scripts.marker ++ assignTail)

/-- The content transformation of `restore_facade.py`:
`content.split(marker)[0] + facadeBlock`. -/
def newContentOf (content : List Char) : List Char :=
  splitFirst marker content ++ facadeBlock

/-- `restore_facade` of `restore_facade.py`: read `Utils_Main.gs`, keep the
portion before the first marker, append the hardcoded block, overwrite.
`none` when the file is missing (fatal read error). -/
def restore_facade (fs : FS) : Option FS :=
  match fs "Utils_Main.gs" with
  | none => none
  | some content => some (fsWrite fs "Utils_Main.gs" (newContentOf content))

end RestoreFacade

namespace UpdateUtils

open Scripts

/-- The literal head `include(` of the Pass 1 regex
`include\((?:["'])([^"']+)(?:["'])\)`. -/
def incLit : List Char := "include(".toList

/-- Try the Pass 1 regex at the head of `cs`.  The opening and closing quote
classes are independent (each is `["']`); the argument is a non-empty maximal
run of non-quote characters; then a closing quote and `)`.  On success return
the captured argument and the remainder of the input. -/
def matchInclude (cs : List Char) : Option (List Char × List Char) :=
  match dropLit incLit cs with
  | none => none
  | some rest1 =>
    match rest1 with
    | [] => none
    | q1 :: rest2 =>
      if isQuote q1 then
        let arg := rest2.takeWhile (fun c => !isQuote c)
        if arg = [] then none
        else
          match rest2.dropWhile (fun c => !isQuote c) with
          | q2 :: close :: rest3 =>
            if isQuote q2 ∧ close = ')' then some (arg, rest3) else none
          | _ => none
      else none

/-- The Pass 1 replacement `f'include("Utils_{m.group(1)}")'`: the argument
is re-emitted double-quoted with the `Utils_` prefix. -/
def replInclude (arg : List Char) : List Char :=
  "include(\"Utils_".toList ++ arg ++ "\")".toList

/-- `re.sub` driver for Pass 1: left-to-right scan, non-overlapping matches.
Fuel-driven; fuel `s.length` suffices since a match consumes at least one
character. -/
def subIncludeFuel : Nat → List Char → List Char
  | 0, s => s
  | _ + 1, [] => []
  | n + 1, c :: cs =>
    match matchInclude (c :: cs) with
    | some (arg, rest) => replInclude arg ++ subIncludeFuel n rest
    | none => c :: subIncludeFuel n cs

/-- Pass 1 of `update_file_content`. -/
def pass1 (s : List Char) : List Char := subIncludeFuel s.length s

/-- Try an alternation of identifier words at the head of `cs`, requiring a
word boundary after the match (end of input or a non-word character).  The
words have pairwise distinct literals none of which is a prefix of another,
so trying them in order matches the regex alternation's backtracking. -/
def tryWords : List (List Char) → List Char → Option (List Char × List Char)
  | [], _ => none
  | w :: ws, cs =>
    match dropLit w cs with
    | some rest =>
      match rest with
      | [] => some (w, [])
      | d :: _ => if wordChar d then tryWords ws cs else some (w, rest)
    | none => tryWords ws cs

/-- `re.sub` driver for the word-boundary passes: `prevW` records whether the
previous character of the original text is a word character (so `\b` holds
before the current position exactly when `prevW = false`, as every word in
the alternation begins with a word character).  After a match, scanning
resumes after the matched word, whose last character becomes the previous
character. -/
def subWordsFuel (ws : List (List Char)) : Nat → Bool → List Char → List Char
  | 0, _, s => s
  | _ + 1, _, [] => []
  | n + 1, prevW, c :: cs =>
    if prevW then c :: subWordsFuel ws n (wordChar c) cs
    else
      match tryWords ws (c :: cs) with
      | some (w, rest) =>
        "Utils_".toList ++ w ++ subWordsFuel ws n (wordChar (w.getLastD c)) rest
      | none => c :: subWordsFuel ws n (wordChar c) cs

/-- The Pass 2 alternation `\b(?:Core|Email|Analysis|Data)Utils\b`. -/
def utilsWords : List (List Char) :=
  ["CoreUtils".toList, "EmailUtils".toList, "AnalysisUtils".toList,
   "DataUtils".toList]

/-- The Pass 3 alternation
`\b(?:FundamentalMetrics|MacroeconomicFactors|MarketIndicators|MarketSentiment|GeopoliticalRisks)\b`. -/
def sectionWords : List (List Char) :=
  ["FundamentalMetrics".toList, "MacroeconomicFactors".toList,
   "MarketIndicators".toList, "MarketSentiment".toList,
   "GeopoliticalRisks".toList]

/-- Pass 2 of `update_file_content`. -/
def pass2 (s : List Char) : List Char := subWordsFuel utilsWords s.length false s

/-- Pass 3 of `update_file_content`. -/
def pass3 (s : List Char) : List Char := subWordsFuel sectionWords s.length false s

/-- `update_file_content` of `update_utils.py`: the three `re.sub` passes in
sequence. -/
def update_file_content (content : List Char) : List Char :=
  pass3 (pass2 (pass1 content))

end UpdateUtils

namespace Scripts

/-- Concrete filesystem for the Combiner example of the spec: `Utils.gs`
holds `NEW_BODY`, `Utils_Main.gs` holds `HEADER`, the marker line and
`OLD_BODY`. -/
def fsCombineEx : FS := fun n =>
  if n = "Utils.gs" then some "NEW_BODY".toList
  else if n = "Utils_Main.gs" then
    some "HEADER\n// Export all functions directly\nOLD_BODY".toList
  else none

/-- Concrete filesystem whose `Utils_Main.gs` does not contain the marker. -/
def fsNoMarkerEx : FS := fun n =>
  if n = "Utils.gs" then some "NEW_BODY".toList
  else if n = "Utils_Main.gs" then some "JUST_A_HEADER".toList
  else none

/-- Concrete filesystem for the Facade Restorer example: the facade file
holds arbitrary text. -/
def fsRestoreEx : FS := fun n =>
  if n = "Utils_Main.gs" then some "SOME OLD HEADER\nmore text".toList else none

/-- Concrete filesystem for the Facade Restorer double-run example. -/
def fsRestoreTwiceEx : FS := fun n =>
  if n = "Utils_Main.gs" then some "HDR".toList else none

/-- Concrete filesystem for the list-iterating loops: only `Code.gs` and
`Email.gs` of the fixed list exist. -/
def fsLoopEx : FS := fun n =>
  if n = "Code.gs" then some "Utils_Main!".toList
  else if n = "Email.gs" then some "CoreUtils".toList
  else none

end Scripts

namespace Scripts

/- Helper lemmas about the string scanners. -/

theorem dropLit_append (p r : List Char) : dropLit p (p ++ r) = some r := by
  induction p with
  | nil => rfl
  | cons c cs ih => simp [dropLit, ih]

theorem takeWhile_middle (p : Char → Bool) (l : List Char) (d : Char)
    (r : List Char) (hl : ∀ c ∈ l, p c = true) (hd : p d = false) :
    (l ++ d :: r).takeWhile p = l ∧ (l ++ d :: r).dropWhile p = d :: r := by
  induction l with
  | nil => simp [List.takeWhile, List.dropWhile, hd]
  | cons c cs ih =>
    have hc : p c = true := hl c (by simp)
    have ih' := ih (fun x hx => hl x (by simp [hx]))
    simp [List.takeWhile, List.dropWhile, hc, ih'.1, ih'.2]

theorem splitFirst_cons_pos (m : List Char) (c : Char) (cs : List Char)
    (h : m.isPrefixOf (c :: cs) = true) : splitFirst m (c :: cs) = [] := by
  simp [splitFirst, h]

theorem splitFirst_cons_neg (m : List Char) (c : Char) (cs : List Char)
    (h : m.isPrefixOf (c :: cs) = false) :
    splitFirst m (c :: cs) = c :: splitFirst m cs := by
  simp [splitFirst, h]

theorem splitFirst_no_occ (m : List Char) :
    ∀ s : List Char, containsTok m s = false → splitFirst m s = s := by
  intro s
  induction s with
  | nil => intro _; rfl
  | cons c cs ih =>
    intro h
    simp only [containsTok, Bool.or_eq_false_iff] at h
    simp [splitFirst, h.1, ih h.2]

theorem splitFirst_isPre (m : List Char) :
    ∀ s : List Char, splitFirst m s <+: s := by
  intro s
  induction s with
  | nil => exact List.nil_prefix
  | cons c cs ih =>
    by_cases h : m.isPrefixOf (c :: cs) = true
    · simp [splitFirst, h, List.nil_prefix]
    · rw [Bool.not_eq_true] at h
      simp only [splitFirst, h, if_neg Bool.false_ne_true]
      exact List.cons_prefix_cons.mpr ⟨rfl, ih⟩

theorem containsTok_splitFirst (m : List Char) (hm : m ≠ []) :
    ∀ s : List Char, containsTok m (splitFirst m s) = false := by
  intro s
  induction s with
  | nil =>
    simp only [splitFirst, containsTok]
    rw [Bool.eq_false_iff]
    intro hpre
    exact hm (List.prefix_nil.mp (List.isPrefixOf_iff_prefix.mp hpre))
  | cons c cs ih =>
    by_cases h : m.isPrefixOf (c :: cs) = true
    · simp only [splitFirst, h, if_pos trivial, containsTok]
      rw [Bool.eq_false_iff]
      intro hpre
      exact hm (List.prefix_nil.mp (List.isPrefixOf_iff_prefix.mp hpre))
    · rw [Bool.not_eq_true] at h
      simp only [splitFirst, h, if_neg Bool.false_ne_true, containsTok,
        Bool.or_eq_false_iff]
      refine ⟨?_, ih⟩
      rw [Bool.eq_false_iff]
      intro hpre
      have h1 : m <+: c :: splitFirst m cs := List.isPrefixOf_iff_prefix.mp hpre
      have h2 : c :: splitFirst m cs <+: c :: cs :=
        List.cons_prefix_cons.mpr ⟨rfl, splitFirst_isPre m cs⟩
      have h3 : m.isPrefixOf (c :: cs) = true :=
        List.isPrefixOf_iff_prefix.mpr (h1.trans h2)
      rw [h] at h3
      exact Bool.false_ne_true h3

theorem splitFirst_append_marker (m : List Char) (d : Char)
    (hm : m ≠ []) (hd : d ∉ m) :
    ∀ (p t : List Char), containsTok m p = false →
      splitFirst m (p ++ d :: (m ++ t)) = p ++ [d] := by
  intro p
  induction p with
  | nil =>
    intro t _
    have hnp : m.isPrefixOf (d :: (m ++ t)) = false := by
      rw [Bool.eq_false_iff]
      intro hpre
      have h1 : m <+: d :: (m ++ t) := List.isPrefixOf_iff_prefix.mp hpre
      match m, h1 with
      | [], _ => exact hm rfl
      | a :: m', h1 =>
        have := (List.cons_prefix_cons.mp h1).1
        exact hd (by simp [this])
    rw [List.nil_append, List.nil_append,
      splitFirst_cons_neg m d (m ++ t) hnp]
    match hm2 : m, hm with
    | a :: m', _ =>
      have hp2 : (a :: m').isPrefixOf (a :: (m' ++ t)) = true :=
        List.isPrefixOf_iff_prefix.mpr
          (List.prefix_append (a :: m') t)
      rw [List.cons_append, splitFirst_cons_pos (a :: m') a (m' ++ t) hp2]
  | cons a p' ih =>
    intro t hcont
    simp only [containsTok, Bool.or_eq_false_iff] at hcont
    have hnp : m.isPrefixOf (a :: (p' ++ d :: (m ++ t))) = false := by
      rw [Bool.eq_false_iff]
      intro hpre
      have h1 : m <+: (a :: p') ++ (d :: (m ++ t)) :=
        List.isPrefixOf_iff_prefix.mp hpre
      rcases le_or_lt m.length (a :: p').length with hle | hlt
      · have h2 : m <+: a :: p' :=
          List.prefix_of_prefix_length_le h1 (List.prefix_append _ _) hle
        have h5 := List.isPrefixOf_iff_prefix.mpr h2
        rw [hcont.1] at h5
        exact Bool.false_ne_true h5
      · have hfull : (a :: p') ++ (d :: (m ++ t)) = ((a :: p') ++ [d]) ++ (m ++ t) := by
          simp
        have h3 : (a :: p') ++ [d] <+: ((a :: p') ++ [d]) ++ (m ++ t) :=
          List.prefix_append _ _
        rw [← hfull] at h3
        have h4 : (a :: p') ++ [d] <+: m := by
          refine List.prefix_of_prefix_length_le h3 h1 ?_
          simp only [List.length_append, List.length_cons, List.length_nil]
          simp only [List.length_cons] at hlt
          omega
        exact hd (h4.subset (by simp))
    rw [List.cons_append, splitFirst_cons_neg m a _ hnp, ih t hcont.2,
      List.cons_append]

theorem fsWrite_same (fs : FS) (n : String) (c : List Char) :
    fsWrite fs n c n = some c := by
  simp [fsWrite]

theorem fsWrite_other (fs : FS) (n m : String) (c : List Char) (h : m ≠ n) :
    fsWrite fs n c m = fs m := by
  simp [fsWrite, h]

theorem updatedLine_inj {f g : String}
    (h : "Updated: " ++ g = "Updated: " ++ f) : g = f := by
  have hd := congrArg String.data h
  rw [String.data_append, String.data_append] at hd
  have := List.append_cancel_left hd
  cases g; cases f
  exact congrArg String.mk this

theorem runFiles_spec (T : List Char → List Char) :
    ∀ l : List String, l.Nodup → ∀ fs : FS,
      (runFiles T l fs).2
          = (l.filter (fun f => (fs f).isSome)).map (fun f => "Updated: " ++ f)
        ∧ ∀ n, (runFiles T l fs).1 n
          = if n ∈ l then Option.map T (fs n) else fs n := by
  intro l
  induction l with
  | nil =>
    intro _ fs
    exact ⟨rfl, fun n => by simp [runFiles]⟩
  | cons f rest ih =>
    intro hnd fs
    rw [List.nodup_cons] at hnd
    obtain ⟨hf, hrest⟩ := hnd
    cases hfs : fs f with
    | none =>
      have heq : runFiles T (f :: rest) fs = runFiles T rest fs := by
        simp [runFiles, hfs]
      obtain ⟨hout, hmap⟩ := ih hrest fs
      constructor
      · rw [heq, hout, List.filter_cons]
        simp [hfs]
      · intro n
        rw [heq, hmap n]
        by_cases hn : n ∈ rest
        · simp [hn]
        · by_cases hnf : n = f
          · subst hnf
            simp [hn, hfs]
          · simp [hn, hnf]
    | some c =>
      have heq : runFiles T (f :: rest) fs
          = ((runFiles T rest (fsWrite fs f (T c))).1,
             ("Updated: " ++ f) :: (runFiles T rest (fsWrite fs f (T c))).2) := by
        simp [runFiles, hfs]
      obtain ⟨hout, hmap⟩ := ih hrest (fsWrite fs f (T c))
      have hagree : ∀ g ∈ rest, fsWrite fs f (T c) g = fs g := by
        intro g hg
        exact fsWrite_other fs f g (T c) (fun hgf => hf (hgf ▸ hg))
      constructor
      · rw [heq]
        simp only []
        rw [hout, List.filter_cons]
        simp only [hfs, Option.isSome_some, if_pos trivial, List.map_cons]
        congr 1
        congr 1
        exact List.filter_congr (fun g hg => by rw [hagree g hg])
      · intro n
        rw [heq]
        simp only []
        rw [hmap n]
        by_cases hn : n ∈ rest
        · have hnf : n ≠ f := fun hnf => hf (hnf ▸ hn)
          rw [fsWrite_other fs f n (T c) hnf]
          simp [hn]
        · by_cases hnf : n = f
          · subst hnf
            rw [fsWrite_same, hfs]
            simp [hn]
          · rw [fsWrite_other fs f n (T c) hnf]
            simp [hn, hnf]

theorem containsTok_replaceFuel (old new : List Char) :
    ∀ (n : Nat) (s : List Char), containsTok old s = false →
      replaceFuel old new n s = s := by
  intro n
  induction n with
  | zero => intro s _; rfl
  | succ k ih =>
    intro s h
    match s with
    | [] => rfl
    | c :: cs =>
      simp only [containsTok, Bool.or_eq_false_iff] at h
      simp [replaceFuel, h.1, ih cs h.2]

end Scripts

namespace UpdateUtils

open Scripts

theorem matchInclude_eq (q1 q2 : Char) (arg rest : List Char)
    (h1 : isQuote q1 = true) (h2 : isQuote q2 = true) (hne : arg ≠ [])
    (hq : ∀ c ∈ arg, isQuote c = false) :
    matchInclude (incLit ++ q1 :: (arg ++ q2 :: ')' :: rest)) = some (arg, rest) := by
  have htw := takeWhile_middle (fun c => !isQuote c) arg q2 (')' :: rest)
    (fun c hc => by rw [Bool.not_eq_true']; exact hq c hc)
    (by simp only [h2, Bool.not_true])
  simp only [matchInclude, dropLit_append, h1, if_pos trivial, htw.1, htw.2]
  simp [hne, h2]

theorem subIncludeFuel_nil (n : Nat) : subIncludeFuel n [] = [] := by
  cases n <;> rfl

theorem subIncludeFuel_match (n : Nat) (s arg : List Char) (hn : 0 < n)
    (hm : matchInclude s = some (arg, [])) :
    subIncludeFuel n s = replInclude arg := by
  have hnil : matchInclude [] = none := by decide
  match n, hn with
  | k + 1, _ =>
    match s with
    | [] => rw [hnil] at hm; exact absurd hm (by simp)
    | c :: cs =>
      simp only [subIncludeFuel, hm, subIncludeFuel_nil, List.append_nil]

theorem pass1_single (q1 q2 : Char) (arg : List Char)
    (h1 : isQuote q1 = true) (h2 : isQuote q2 = true) (hne : arg ≠ [])
    (hq : ∀ c ∈ arg, isQuote c = false) :
    pass1 (incLit ++ q1 :: (arg ++ q2 :: ')' :: [])) = replInclude arg := by
  apply subIncludeFuel_match
  · simp only [List.length_append, List.length_cons]
    omega
  · exact matchInclude_eq q1 q2 arg [] h1 h2 hne hq

end UpdateUtils

/-
Claim theorems.
-/

/-- C1 counterexample: applying `update_utils.py`'s `update_file_content`
twice to the standalone token `CoreUtils` yields `Utils_CoreUtils` again,
not `Utils_Utils_CoreUtils`: the injected prefix ends in `_`, a word
character, so the word-boundary pattern no longer matches on the rerun. -/
theorem C1_counterexample :
    UpdateUtils.update_file_content "CoreUtils".toList = "Utils_CoreUtils".toList
    ∧ UpdateUtils.update_file_content
        (UpdateUtils.update_file_content "CoreUtils".toList)
      ≠ "Utils_Utils_CoreUtils".toList := by
  decide

/-- C1 (amended): one application of `update_utils.py`'s
`update_file_content` to the standalone token `CoreUtils` yields
`Utils_CoreUtils`, and a second application leaves `Utils_CoreUtils`
unchanged (the transformation is idempotent on this input). -/
theorem C1_theorem :
    UpdateUtils.update_file_content "CoreUtils".toList = "Utils_CoreUtils".toList
    ∧ UpdateUtils.update_file_content "Utils_CoreUtils".toList
      = "Utils_CoreUtils".toList := by
  decide

/-- C2 counterexample: `remove_facade.py`'s `update_file_content` on
`Utils_MUtils_Mainain` removes the single occurrence of `Utils_Main` but
thereby splices together a new one: the output is exactly `Utils_Main`,
still contains the token, and a second application changes it again. -/
theorem C2_counterexample :
    RemoveFacade.update_file_content "Utils_MUtils_Mainain".toList
      = "Utils_Main".toList
    ∧ Scripts.containsTok "Utils_Main".toList
        (RemoveFacade.update_file_content "Utils_MUtils_Mainain".toList) = true
    ∧ RemoveFacade.update_file_content
        (RemoveFacade.update_file_content "Utils_MUtils_Mainain".toList)
      ≠ RemoveFacade.update_file_content "Utils_MUtils_Mainain".toList := by
  decide

/-- C2 (amended): `remove_facade.py`'s `update_file_content` removes the
occurrences of `Utils_Main` found in one left-to-right scan; whenever its
output contains no occurrence of `Utils_Main` (i.e. the removal did not
splice a new occurrence together), a second application changes nothing. -/
theorem C2_theorem (s : List Char)
    (h : Scripts.containsTok "Utils_Main".toList
        (RemoveFacade.update_file_content s) = false) :
    RemoveFacade.update_file_content (RemoveFacade.update_file_content s)
      = RemoveFacade.update_file_content s :=
  Scripts.containsTok_replaceFuel "Utils_Main".toList "".toList
    (RemoveFacade.update_file_content s).length
    (RemoveFacade.update_file_content s) h

/-- C2 witness: the spec's own Facade Remover example `callUtils_MainThing()`
maps to `callThing()`, whose output is clean, so a second application is a
no-op there. -/
theorem C2_witness :
    Scripts.containsTok "Utils_Main".toList
        (RemoveFacade.update_file_content "callUtils_MainThing()".toList) = false
    ∧ RemoveFacade.update_file_content
        (RemoveFacade.update_file_content "callUtils_MainThing()".toList)
      = RemoveFacade.update_file_content "callUtils_MainThing()".toList :=
  ⟨by decide, C2_theorem "callUtils_MainThing()".toList (by decide)⟩

/-- C3 counterexample: the include call `include("Foo')` with mismatched
quotes IS matched by Pass 1 and rewritten to `include("Utils_Foo")` — it is
not left unchanged.  (`Char.ofNat 39` is the single-quote character.) -/
theorem C3_counterexample :
    UpdateUtils.pass1 ("include(\"Foo".toList ++ Char.ofNat 39 :: [')'])
      ≠ "include(\"Foo".toList ++ Char.ofNat 39 :: [')']
    ∧ UpdateUtils.pass1 ("include(\"Foo".toList ++ Char.ofNat 39 :: [')'])
      = "include(\"Utils_Foo\")".toList := by
  decide

/-- C3 (amended): in Pass 1 the opening and closing quote classes are
independent, so an include call whose opening and closing quote characters
differ is still matched, its argument is prefixed with `Utils_` and the
output is double-quoted. -/
theorem C3_theorem (q1 q2 : Char) (arg : List Char)
    (h1 : Scripts.isQuote q1 = true) (h2 : Scripts.isQuote q2 = true)
    (_hq12 : q1 ≠ q2) (hne : arg ≠ [])
    (hq : ∀ c ∈ arg, Scripts.isQuote c = false) :
    UpdateUtils.pass1 (UpdateUtils.incLit ++ q1 :: (arg ++ q2 :: ')' :: []))
      = UpdateUtils.replInclude arg :=
  UpdateUtils.pass1_single q1 q2 arg h1 h2 hne hq

/-- C3 witness: the mismatched-quote call `include("Foo')` concretely. -/
theorem C3_witness :
    Scripts.isQuote '"' = true ∧ Scripts.isQuote (Char.ofNat 39) = true
    ∧ ('"' : Char) ≠ Char.ofNat 39 ∧ ("Foo".toList : List Char) ≠ []
    ∧ UpdateUtils.pass1
        (UpdateUtils.incLit ++ '"' :: ("Foo".toList ++ Char.ofNat 39 :: ')' :: []))
      = "include(\"Utils_Foo\")".toList := by
  refine ⟨by decide, by decide, by decide, by decide, ?_⟩
  have h := C3_theorem '"' (Char.ofNat 39) "Foo".toList (by decide) (by decide)
    (by decide) (by decide) (by decide)
  exact h.trans (by decide)

/-- C4: when both files exist, `combine_files` succeeds, the new content of
`Utils_Main.gs` is its pre-marker portion, the marker line (with surrounding
newlines) and the full content of `Utils.gs`, and `Utils.gs` no longer
exists. -/
theorem C4_theorem (fs : Scripts.FS) (a b : List Char)
    (ha : fs "Utils.gs" = some a) (hb : fs "Utils_Main.gs" = some b) :
    ∃ fs2, CombineUtils.combine_files fs = some fs2
      ∧ fs2 "Utils_Main.gs"
        = some (Scripts.splitFirst Scripts.marker b
            ++ "\n// Export all functions directly\n".toList ++ a)
      ∧ fs2 "Utils.gs" = none := by
  have hne : ("Utils_Main.gs" : String) ≠ "Utils.gs" := by decide
  have hc : CombineUtils.combine_files fs
      = some (Scripts.fsRemove
          (Scripts.fsWrite fs "Utils_Main.gs"
            (Scripts.splitFirst Scripts.marker b
              ++ "\n// Export all functions directly\n".toList ++ a))
          "Utils.gs") := by
    unfold CombineUtils.combine_files
    rw [ha, hb]
  refine ⟨_, hc, ?_, ?_⟩
  · simp [Scripts.fsRemove, Scripts.fsWrite, hne]
  · simp [Scripts.fsRemove]

/-- C4 witness: the spec's concrete Combiner example, `B` containing
`HEADER`, the marker line and `OLD_BODY`, and `A` containing `NEW_BODY`. -/
theorem C4_witness :
    Scripts.fsCombineEx "Utils.gs" = some "NEW_BODY".toList
    ∧ Scripts.fsCombineEx "Utils_Main.gs"
      = some "HEADER\n// Export all functions directly\nOLD_BODY".toList
    ∧ ∃ fs2, CombineUtils.combine_files Scripts.fsCombineEx = some fs2
      ∧ fs2 "Utils_Main.gs"
        = some "HEADER\n\n// Export all functions directly\nNEW_BODY".toList
      ∧ fs2 "Utils.gs" = none := by
  obtain ⟨fs2, h1, h2, h3⟩ := C4_theorem Scripts.fsCombineEx "NEW_BODY".toList
    "HEADER\n// Export all functions directly\nOLD_BODY".toList
    (by decide) (by decide)
  refine ⟨by decide, by decide, fs2, h1, ?_, h3⟩
  rw [h2]
  exact congrArg some (by decide)

/-- C5: whatever `Utils_Main.gs` previously contained, after
`restore_facade` its content ends byte-for-byte with the marker line
followed by the fixed `Object.assign` mapping block. -/
theorem C5_theorem (fs : Scripts.FS) (content : List Char)
    (h : fs "Utils_Main.gs" = some content) :
    ∃ fs2, RestoreFacade.restore_facade fs = some fs2
      ∧ ∃ newC, fs2 "Utils_Main.gs" = some newC
        ∧ List.IsSuffix (Scripts.marker ++ RestoreFacade.assignTail) newC := by
  have hr : RestoreFacade.restore_facade fs
      = some (Scripts.fsWrite fs "Utils_Main.gs"
          (RestoreFacade.newContentOf content)) := by
    unfold RestoreFacade.restore_facade
    rw [h]
  refine ⟨_, hr, RestoreFacade.newContentOf content,
    Scripts.fsWrite_same fs "Utils_Main.gs" _, ?_⟩
  refine ⟨Scripts.splitFirst Scripts.marker content ++ ['\n'], ?_⟩
  simp [RestoreFacade.newContentOf, RestoreFacade.facadeBlock]

/-- C5 witness: a facade file holding arbitrary prior text. -/
theorem C5_witness :
    Scripts.fsRestoreEx "Utils_Main.gs" = some "SOME OLD HEADER\nmore text".toList
    ∧ ∃ fs2, RestoreFacade.restore_facade Scripts.fsRestoreEx = some fs2
      ∧ ∃ newC, fs2 "Utils_Main.gs" = some newC
        ∧ List.IsSuffix (Scripts.marker ++ RestoreFacade.assignTail) newC :=
  ⟨by decide,
   C5_theorem Scripts.fsRestoreEx "SOME OLD HEADER\nmore text".toList (by decide)⟩

/-- C6: Pass 1 rewrites an include call with a single quoted argument so
that argument `X` becomes `Utils_X`, double-quoted in the output regardless
of the original quote character. -/
theorem C6_theorem (q : Char) (arg : List Char)
    (hq : Scripts.isQuote q = true) (hne : arg ≠ [])
    (hargq : ∀ c ∈ arg, Scripts.isQuote c = false) :
    UpdateUtils.pass1 (UpdateUtils.incLit ++ q :: (arg ++ q :: ')' :: []))
      = "include(\"Utils_".toList ++ arg ++ "\")".toList :=
  UpdateUtils.pass1_single q q arg hq hq hne hargq

/-- C6 witness: `include('Foo')` becomes `include("Utils_Foo")`
(`Char.ofNat 39` is the single-quote character). -/
theorem C6_witness :
    Scripts.isQuote (Char.ofNat 39) = true ∧ ("Foo".toList : List Char) ≠ []
    ∧ UpdateUtils.pass1
        (UpdateUtils.incLit
          ++ Char.ofNat 39 :: ("Foo".toList ++ Char.ofNat 39 :: ')' :: []))
      = "include(\"Utils_Foo\")".toList := by
  refine ⟨by decide, by decide, ?_⟩
  have h := C6_theorem (Char.ofNat 39) "Foo".toList (by decide) (by decide)
    (by decide)
  exact h.trans (by decide)

/-- C7: Pass 2 rewrites only standalone word-boundary-delimited tokens: the
standalone token `CoreUtils` becomes `Utils_CoreUtils`, while
`MyCoreUtilsExtra` is left unchanged by Pass 2 and by the whole
`update_file_content`. -/
theorem C7_theorem :
    UpdateUtils.pass2 "CoreUtils".toList = "Utils_CoreUtils".toList
    ∧ UpdateUtils.pass2 "MyCoreUtilsExtra".toList = "MyCoreUtilsExtra".toList
    ∧ UpdateUtils.update_file_content "MyCoreUtilsExtra".toList
      = "MyCoreUtilsExtra".toList := by
  decide

/-- C8: when `Utils_Main.gs` does not contain the marker, its whole content
is the pre-marker portion: the combined file is the full original content of
`Utils_Main.gs`, the marker line, and the full content of `Utils.gs`. -/
theorem C8_theorem (fs : Scripts.FS) (a b : List Char)
    (ha : fs "Utils.gs" = some a) (hb : fs "Utils_Main.gs" = some b)
    (hno : Scripts.containsTok Scripts.marker b = false) :
    ∃ fs2, CombineUtils.combine_files fs = some fs2
      ∧ fs2 "Utils_Main.gs"
        = some (b ++ "\n// Export all functions directly\n".toList ++ a)
      ∧ fs2 "Utils.gs" = none := by
  obtain ⟨fs2, h1, h2, h3⟩ := C4_theorem fs a b ha hb
  refine ⟨fs2, h1, ?_, h3⟩
  rw [h2, Scripts.splitFirst_no_occ Scripts.marker b hno]

/-- C8 witness: `Utils_Main.gs` holding marker-free content. -/
theorem C8_witness :
    Scripts.fsNoMarkerEx "Utils.gs" = some "NEW_BODY".toList
    ∧ Scripts.fsNoMarkerEx "Utils_Main.gs" = some "JUST_A_HEADER".toList
    ∧ Scripts.containsTok Scripts.marker "JUST_A_HEADER".toList = false
    ∧ ∃ fs2, CombineUtils.combine_files Scripts.fsNoMarkerEx = some fs2
      ∧ fs2 "Utils_Main.gs"
        = some ("JUST_A_HEADER".toList
            ++ "\n// Export all functions directly\n".toList ++ "NEW_BODY".toList)
      ∧ fs2 "Utils.gs" = none :=
  ⟨by decide, by decide, by decide,
   C8_theorem Scripts.fsNoMarkerEx "NEW_BODY".toList "JUST_A_HEADER".toList
     (by decide) (by decide) (by decide)⟩

/-- C9: for both list-iterating scripts, the loop prints exactly one
`Updated: <name>` line per existing listed file, in list order (the printed
list is the filter-then-map of the fixed list); every existing listed file
is rewritten with the respective transformation while every other file —
in particular every missing listed file — is untouched, and no line is
printed for a missing listed file. -/
theorem C9_theorem (fs : Scripts.FS) :
    ((Scripts.runFiles RemoveFacade.update_file_content
          Scripts.files_to_update fs).2
        = (Scripts.files_to_update.filter (fun f => (fs f).isSome)).map
            (fun f => "Updated: " ++ f)
      ∧ (∀ n, (Scripts.runFiles RemoveFacade.update_file_content
            Scripts.files_to_update fs).1 n
          = if n ∈ Scripts.files_to_update
            then Option.map RemoveFacade.update_file_content (fs n) else fs n)
      ∧ ∀ f ∈ Scripts.files_to_update, fs f = none →
          ("Updated: " ++ f) ∉ (Scripts.runFiles RemoveFacade.update_file_content
            Scripts.files_to_update fs).2)
    ∧ ((Scripts.runFiles UpdateUtils.update_file_content
          Scripts.files_to_update fs).2
        = (Scripts.files_to_update.filter (fun f => (fs f).isSome)).map
            (fun f => "Updated: " ++ f)
      ∧ (∀ n, (Scripts.runFiles UpdateUtils.update_file_content
            Scripts.files_to_update fs).1 n
          = if n ∈ Scripts.files_to_update
            then Option.map UpdateUtils.update_file_content (fs n) else fs n)
      ∧ ∀ f ∈ Scripts.files_to_update, fs f = none →
          ("Updated: " ++ f) ∉ (Scripts.runFiles UpdateUtils.update_file_content
            Scripts.files_to_update fs).2) := by
  have hnd : Scripts.files_to_update.Nodup := by decide
  have h1 := Scripts.runFiles_spec RemoveFacade.update_file_content
    Scripts.files_to_update hnd fs
  have h2 := Scripts.runFiles_spec UpdateUtils.update_file_content
    Scripts.files_to_update hnd fs
  have habsent : ∀ (out : List String),
      out = (Scripts.files_to_update.filter (fun f => (fs f).isSome)).map
          (fun f => "Updated: " ++ f) →
      ∀ f ∈ Scripts.files_to_update, fs f = none → ("Updated: " ++ f) ∉ out := by
    intro out hout f _ hnone hmem
    rw [hout] at hmem
    obtain ⟨g, hg, heq⟩ := List.mem_map.mp hmem
    have hgf : g = f := Scripts.updatedLine_inj heq
    subst hgf
    have hsome := (List.mem_filter.mp hg).2
    rw [hnone] at hsome
    exact Bool.false_ne_true hsome
  exact ⟨⟨h1.1, h1.2, habsent _ h1.1⟩, ⟨h2.1, h2.2, habsent _ h2.1⟩⟩

/-- C9 witness: with only `Code.gs` and `Email.gs` present, `Config.gs` is
missing, gets no printed line under either script's loop, and `Code.gs` is
still rewritten. -/
theorem C9_witness :
    (("Config.gs" : String) ∈ Scripts.files_to_update
      ∧ Scripts.fsLoopEx "Config.gs" = none)
    ∧ ("Updated: Config.gs")
        ∉ (Scripts.runFiles RemoveFacade.update_file_content
            Scripts.files_to_update Scripts.fsLoopEx).2
    ∧ ("Updated: Config.gs")
        ∉ (Scripts.runFiles UpdateUtils.update_file_content
            Scripts.files_to_update Scripts.fsLoopEx).2
    ∧ (Scripts.runFiles UpdateUtils.update_file_content
        Scripts.files_to_update Scripts.fsLoopEx).1 "Email.gs"
      = some "Utils_CoreUtils".toList := by
  have h := C9_theorem Scripts.fsLoopEx
  refine ⟨⟨by decide, by decide⟩,
    h.1.2.2 "Config.gs" (by decide) (by decide),
    h.2.2.2 "Config.gs" (by decide) (by decide), ?_⟩
  rw [h.2.2.1 "Email.gs"]
  decide

/-- C10: the Facade Restorer is not idempotent on the header region: running
`restore_facade` twice preserves the first run's pre-marker header plus one
extra newline (the appended block starts with a newline before the marker
line), so the double-run content differs from the single-run content by
exactly one additional `\n` before the marker, with the identical constant
block after it. -/
theorem C10_theorem (fs : Scripts.FS) (content : List Char)
    (h : fs "Utils_Main.gs" = some content) :
    ∃ fs1 fs2,
      RestoreFacade.restore_facade fs = some fs1
      ∧ RestoreFacade.restore_facade fs1 = some fs2
      ∧ fs1 "Utils_Main.gs"
        = some (Scripts.splitFirst Scripts.marker content
            ++ RestoreFacade.facadeBlock)
      ∧ fs2 "Utils_Main.gs"
        = some ((Scripts.splitFirst Scripts.marker content ++ ['\n'])
            ++ RestoreFacade.facadeBlock)
      ∧ fs2 "Utils_Main.gs" ≠ fs1 "Utils_Main.gs" := by
  have hm : Scripts.marker ≠ [] := by decide
  have hd : '\n' ∉ Scripts.marker := by decide
  have hkey : Scripts.splitFirst Scripts.marker
      (Scripts.splitFirst Scripts.marker content ++ RestoreFacade.facadeBlock)
      = Scripts.splitFirst Scripts.marker content ++ ['\n'] := by
    have hcont := Scripts.containsTok_splitFirst Scripts.marker hm content
    have := Scripts.splitFirst_append_marker Scripts.marker '\n' hm hd
      (Scripts.splitFirst Scripts.marker content) RestoreFacade.assignTail hcont
    simpa [RestoreFacade.facadeBlock] using this
  have hr1 : RestoreFacade.restore_facade fs
      = some (Scripts.fsWrite fs "Utils_Main.gs"
          (RestoreFacade.newContentOf content)) := by
    unfold RestoreFacade.restore_facade
    rw [h]
  have hl1 : Scripts.fsWrite fs "Utils_Main.gs"
      (RestoreFacade.newContentOf content) "Utils_Main.gs"
      = some (RestoreFacade.newContentOf content) :=
    Scripts.fsWrite_same fs "Utils_Main.gs" _
  have hr2 : RestoreFacade.restore_facade
      (Scripts.fsWrite fs "Utils_Main.gs" (RestoreFacade.newContentOf content))
      = some (Scripts.fsWrite
          (Scripts.fsWrite fs "Utils_Main.gs" (RestoreFacade.newContentOf content))
          "Utils_Main.gs"
          (RestoreFacade.newContentOf (RestoreFacade.newContentOf content))) := by
    unfold RestoreFacade.restore_facade
    rw [hl1]
  refine ⟨_, _, hr1, hr2, hl1, ?_, ?_⟩
  · rw [Scripts.fsWrite_same]
    unfold RestoreFacade.newContentOf
    rw [hkey]
  · rw [Scripts.fsWrite_same, hl1]
    intro heq
    have hlist := Option.some.inj heq
    have hlen := congrArg List.length hlist
    unfold RestoreFacade.newContentOf at hlen
    rw [hkey] at hlen
    simp only [List.length_append, List.length_cons, List.length_nil] at hlen
    omega

/-- C10 witness: a facade file holding the header `HDR`. -/
theorem C10_witness :
    Scripts.fsRestoreTwiceEx "Utils_Main.gs" = some "HDR".toList
    ∧ ∃ fs1 fs2,
      RestoreFacade.restore_facade Scripts.fsRestoreTwiceEx = some fs1
      ∧ RestoreFacade.restore_facade fs1 = some fs2
      ∧ fs1 "Utils_Main.gs"
        = some (Scripts.splitFirst Scripts.marker "HDR".toList
            ++ RestoreFacade.facadeBlock)
      ∧ fs2 "Utils_Main.gs"
        = some ((Scripts.splitFirst Scripts.marker "HDR".toList ++ ['\n'])
            ++ RestoreFacade.facadeBlock)
      ∧ fs2 "Utils_Main.gs" ≠ fs1 "Utils_Main.gs" :=
  ⟨by decide, C10_theorem Scripts.fsRestoreTwiceEx "HDR".toList (by decide)⟩
